import Mathlib

/-!
Verification of the TestMill orchestrator (ravello/testmill) against its
design specification.  The Python sources under `lib/testmill/` are shallowly
embedded as executable Lean definitions; machine-level concerns (sockets,
wall-clock time, the random source) are made explicit parameters so that the
control flow of each embedded function mirrors the Python control flow
statement by statement.

Sections, in source order:
  * `application.py` — VM state combination and the aggregate-state reduction;
  * `ravello.py`     — the retrying API gateway (`_retry_request`) and the
                       recursive id regeneration (`update_luids`);
  * `run.py`         — reuse-candidate ranking, the create path, the sysinit
                       idempotency marker, and the run-command ssh probe;
  * `util.py`        — `splitname` / `get_unused_name`;
  * `cache.py`       — the full-blueprint cache accessor;
  * `application.py` — the non-blocking ssh reachability probe.
-/

namespace Testmill

/-! ### application.py: VM state combination

`vm_ordered_states` and `combine_states` are embedded from
`lib/testmill/application.py` lines 32-49.  Python's `list.index` raises
`ValueError` when the element is absent; this is modelled by `pyListIndex`
returning `none`, and the `try/except ValueError` blocks of `combine_states`
become matches on that option. -/

def vm_ordered_states : List String :=
  ["PUBLISHING", "STOPPED", "STARTING", "STARTED"]

/-- Python `lst.index(x)` (success as `some index`, `ValueError` as `none`). -/
def pyListIndex (lst : List String) (x : String) : Option Nat :=
  match lst with
  | [] => none
  | y :: ys => if y = x then some 0 else (pyListIndex ys x).map Nat.succ

/-- Function `combine_states(state1, state2)` from application.py.  If both states are
known the result is the one with the minimal index in `vm_ordered_states`;
if either `list.index` call raises `ValueError` the corresponding argument is
returned as is. -/
def combine_states (state1 state2 : String) : String :=
  match pyListIndex vm_ordered_states state1 with
  | none => state1
  | some index1 =>
    match pyListIndex vm_ordered_states state2 with
    | none => state2
    -- list indexing with min index1 index2, which is always in range here
    | some index2 => (vm_ordered_states.getD (min index1 index2) state1)

/-- Python `functools.reduce(f, xs)` without an initializer: `none` on the empty
list (Python raises `TypeError` there), otherwise the left fold of the tail
over the head. -/
def pyReduce (f : String → String → String) : List String → Option String
  | [] => none
  | x :: xs => some (xs.foldl f x)

/-- The state reduction performed by `get_application_state` (application.py
lines 60-69) on the list of per-VM states. -/
def reduce_states (states : List String) : Option String :=
  pyReduce combine_states states

/-! ### ravello.py: the retrying API gateway

`should_retry`, `idempotent` and `RavelloClient._retry_request` are embedded
from `lib/testmill/ravello.py` lines 107-118 and 164-187.  One iteration of
the retry loop (reconnect + relogin when the connection was torn down,
`connection.request`, `getresponse`/`read`) is modelled by an oracle
`attempts : Nat → Attempt α` giving the outcome of the `i`-th iteration's
`try` block: either a response value or the exception it raises. -/

/-- Python's substring test `needle in haystack` on lists of characters. -/
def containsSub (needle : List Char) : List Char → Bool
  | [] => needle.isPrefixOf []
  | c :: rest => needle.isPrefixOf (c :: rest) || containsSub needle rest

/-- Python's substring test `needle in haystack` on strings. -/
def pyInStr (needle haystack : String) : Bool :=
  containsSub needle.toList haystack.toList

/-- The exception classes distinguished by `should_retry`. -/
inductive GatewayExc where
  | socketTimeout : GatewayExc
  | sslError (message : String) : GatewayExc
  | otherError : GatewayExc
  deriving DecidableEq

/-- Predicate `should_retry(exc)` from ravello.py: retry on `socket.timeout`, and on an
`ssl.SSLError` whose message contains `'time'`; nothing else. -/
def should_retry (exc : GatewayExc) : Bool :=
  match exc with
  | .socketTimeout => true
  | .sslError message => pyInStr "time" message
  | .otherError => false

/-- Predicate `idempotent(method)` from ravello.py. -/
def idempotent (method : String) : Bool :=
  ["GET", "HEAD", "PUT"].contains method

/-- Outcome of one iteration's `try` block in `_retry_request`. -/
inductive Attempt (α : Type) where
  | ok (r : α) : Attempt α
  | exc (e : GatewayExc) : Attempt α
  deriving DecidableEq

/-- How `_retry_request` terminates. -/
inductive RetryOutcome (α : Type) where
  | response (r : α)   -- `return response`
  | raised (e : GatewayExc)   -- a non-retryable failure is re-raised
  | maxRetries   -- `raise RavelloError('maximum retries reached ...')`
  deriving DecidableEq

def default_retries : Nat := 3

/-- The `for i in range(self.retries)` loop of `_retry_request`, with the
remaining iteration count and the current iteration index made explicit.
The second component of the result is the number of `self._total_retries += 1`
increments performed, i.e. the number of failed-but-retried iterations. -/
def retryLoop {α : Type} (method : String) (attempts : Nat → Attempt α) :
    Nat → Nat → RetryOutcome α × Nat
  | 0, _ => (.maxRetries, 0)
  | fuel + 1, i =>
    match attempts i with
    | .ok r => (.response r, 0)
    | .exc e =>
      -- `self.close()` tears the connection down; the next iteration's
      -- `attempts` outcome therefore includes the re-connect and re-login
      if !should_retry e || !idempotent method then (.raised e, 0)
      else
        let rest := retryLoop method attempts fuel (i + 1)
        (rest.1, rest.2 + 1)

/-- Method `RavelloClient._retry_request` for a client with `retries` retries. -/
def retry_request {α : Type} (method : String) (retries : Nat)
    (attempts : Nat → Attempt α) : RetryOutcome α × Nat :=
  retryLoop method attempts retries 0

/-! ### run.py: reuse-candidate ranking

Embedded from `RunCommand._reuse_single_vm_application`
(`lib/testmill/run.py` lines 423-459).  A candidate is a pair of the VM
state and the application payload (the source builds `(state, app, vms[0])`
tuples; only the state component matters for ranking).  Python's stable
`list.sort(key=...)` followed by `candidates[0]` is modelled by a stable
insertion sort on the same key followed by `head?`.
`reuse_existing_application` (`lib/testmill/application.py` lines 163-211)
ranks by the index in its `vm_reuse_states` list, which is the same list as
run.py's `VM_STATE_PREFERENCES`, so this selection function covers both. -/

def VM_STATE_PREFERENCES : List String :=
  ["STARTED", "STARTING", "STOPPED", "PUBLISHING"]

def VM_REUSE_STATES : List String :=
  ["PUBLISHING", "STARTING", "STARTED", "STOPPED"]

/-- The sort key `VM_STATE_PREFERENCES.index(x[0])`.  The candidate filter
only admits states in `VM_REUSE_STATES` (the same four strings), so
`list.index` never raises and the default is never used. -/
def preferenceKey {α : Type} (c : String × α) : Nat :=
  (pyListIndex VM_STATE_PREFERENCES c.1).getD 4

/-- The comparison induced by the sort key. -/
def prefLE {α : Type} (a b : String × α) : Prop :=
  preferenceKey a ≤ preferenceKey b

instance {α : Type} : DecidableRel (@prefLE α) :=
  fun _ _ => Nat.decLe _ _

/-- Lines `if not candidates: return` followed by
`candidates.sort(key=...); candidates[0]`. -/
def select_reuse_candidate {α : Type} (candidates : List (String × α)) :
    Option (String × α) :=
  match candidates with
  | [] => none
  | _ => (List.insertionSort prefLE candidates).head?

/-! ### ravello.py / run.py / application.py: id regeneration and the cache

`update_luids` is embedded from `lib/testmill/ravello.py` lines 34-46; it
walks a JSON-like tree and replaces the value of every `id` key with a fresh
`random_luid()`.  `random_luid()` packs 7 random bytes as the low bytes of an
8-byte little-endian integer, i.e. draws a value below 2^56; the random
source is modelled by an oracle `supply : Nat → Nat` giving the draws in
order, reduced mod 2^56.

`update_luids` updates its argument *in place* (its docstring says so).  In
this functional embedding the create paths therefore differ in what they
leave in the full-image cache:

* `create_new_vm` (`lib/testmill/application.py` lines 214-233) calls
  `copy.deepcopy(image)` first, so `update_luids` runs on a clone sharing no
  structure with the cached object, and the cache entry keeps its value;
* `RunCommand._create_new_single_vm_application` (`lib/testmill/run.py`
  lines 461-476) passes the object returned by `get_full_image` — the very
  object stored in the cache — straight to `ravello.update_luids`, so after
  the call the cache entry holds the id-regenerated tree. -/

/-- A JSON-like document tree (Python dict/list/scalar compositions). -/
inductive Doc where
  | null : Doc
  | num (n : Nat) : Doc
  | str (s : String) : Doc
  | obj (fields : List (String × Doc)) : Doc
  | arr (elems : List Doc) : Doc

/-- Function `random_luid()`: the `k`-th draw from the random source, packed into the
low 7 bytes of an 8-byte little-endian integer (top byte zero). -/
def random_luid (supply : Nat → Nat) (k : Nat) : Nat :=
  supply k % 2 ^ 56

mutual

/-- Function `update_luids(obj)`: the pair of the rewritten tree and the index of the
next unused random draw. -/
def update_luids (supply : Nat → Nat) : Doc → Nat → Doc × Nat
  | .obj fields, k =>
    let r := updateLuidsFields supply fields k
    (.obj r.1, r.2)
  | .arr elems, k =>
    let r := updateLuidsElems supply elems k
    (.arr r.1, r.2)
  | .null, k => (.null, k)
  | .num n, k => (.num n, k)
  | .str s, k => (.str s, k)

/-- The `for key in obj` loop: an `id` key gets a fresh luid; a dict or list
value is recursed into; any other value is left alone. -/
def updateLuidsFields (supply : Nat → Nat) :
    List (String × Doc) → Nat → List (String × Doc) × Nat
  | [], k => ([], k)
  | (key, value) :: rest, k =>
    if key = "id" then
      let r := updateLuidsFields supply rest (k + 1)
      ((key, .num (random_luid supply k)) :: r.1, r.2)
    else
      match value with
      | .obj fs =>
        let rv := update_luids supply (.obj fs) k
        let r := updateLuidsFields supply rest rv.2
        ((key, rv.1) :: r.1, r.2)
      | .arr es =>
        let rv := update_luids supply (.arr es) k
        let r := updateLuidsFields supply rest rv.2
        ((key, rv.1) :: r.1, r.2)
      | v =>
        let r := updateLuidsFields supply rest k
        ((key, v) :: r.1, r.2)

/-- The `for elem in obj` loop over a list value. -/
def updateLuidsElems (supply : Nat → Nat) :
    List Doc → Nat → List Doc × Nat
  | [], k => ([], k)
  | d :: rest, k =>
    let rd := update_luids supply d k
    let r := updateLuidsElems supply rest rd.2
    (rd.1 :: r.1, r.2)

end

/-- The full-image cache (`self.full_images` / `env._full_images`), keyed by
image id. -/
def ImageCache : Type := List (Nat × Doc)

/-- The id-regeneration step of `create_new_vm` (application.py): deep-copy
then `update_luids`; the cache entry is untouched.  `none` when the image is
not in the cache (the fetch path of `get_full_image` is out of scope: the
claim is about an image already cached). -/
def create_new_vm_effect (supply : Nat → Nat) (cache : ImageCache)
    (imageId : Nat) : Option (Doc × ImageCache) :=
  match List.lookup imageId cache with
  | none => none
  | some img =>
    let r := update_luids supply img 0
    some (r.1, cache)

/-- The id-regeneration step of `RunCommand._create_new_single_vm_application`
(run.py): no deep copy, so the in-place `update_luids` leaves the regenerated
tree in the cache entry as well. -/
def run_create_vm_effect (supply : Nat → Nat) (cache : ImageCache)
    (imageId : Nat) : Option (Doc × ImageCache) :=
  match List.lookup imageId cache with
  | none => none
  | some img =>
    let r := update_luids supply img 0
    some (r.1, cache.map (fun p => if p.1 = imageId then (p.1, r.1) else p))

/-- A small catalog image with a nested id field. -/
def sampleImage : Doc :=
  .obj [("id", .num 1), ("name", .str "ubuntu"), ("vm", .obj [("id", .num 2)])]

/-- Image `sampleImage` after id regeneration with draws 42, 43. -/
def sampleImageRegen : Doc :=
  .obj [("id", .num 42), ("name", .str "ubuntu"), ("vm", .obj [("id", .num 43)])]

/-! ### run.py: the sysinit idempotency marker

`SysinitTask.run` is embedded from `lib/testmill/run.py` lines 133-151.  The
remote host is a pair of its file system (the set of file names relevant
here: the marker files probed by `test -f` and created by `touch`) and the
ordered log of stage commands executed on it.  `Task.run` template-expands
each command (`command.format(env=fab.env)`) before execution; the expansion
is an explicit parameter. -/

structure RemoteHost where
  files : List String
  executed : List String
  deriving DecidableEq

/-- The input fed to `hashlib.sha1()`: each command followed by a NUL byte,
in order.  This encoding of the command list is injective. -/
def sysinitDigestInput (commands : List String) : String :=
  commands.foldl (fun acc cmd => acc ++ cmd ++ "\x00") ""

/-- The `md.hexdigest()` token.  sha1 itself is Python-stdlib code whose
bit-level output is irrelevant here: the marker logic relies only on the
token being a stable function of the command list, so the (injective) digest
input stands in for its hex digest. -/
def sysinitToken (commands : List String) : String :=
  sysinitDigestInput commands

/-- Line `name = '~/sysinit-%s.done' % token`. -/
def sysinitMarker (commands : List String) : String :=
  "~/sysinit-" ++ sysinitToken commands ++ ".done"

/-- Method `SysinitTask.run` as a transformer of the remote host state: probe the
marker with `test -f`; if present return at once, otherwise execute the
commands under elevation and `touch` the marker. -/
def sysinit_run (expand : String → String) (commands : List String)
    (host : RemoteHost) : RemoteHost :=
  let name := sysinitMarker commands
  if host.files.contains name then host
  else
    let host1 := { host with executed := host.executed ++ commands.map expand }
    { host1 with files := name :: host1.files }

/-! ### util.py: `splitname` and `get_unused_name`

Embedded from `lib/testmill/util.py` lines 31-51.  The separator is a single
character: every call site passes the one-character default `':'`, and the
source's own slice `name[pos+1:]` is only correct for a one-character
separator.  `int(suffix)` can raise `ValueError` (a non-numeric suffix);
`pyInt` models it with `none`, and the exception propagates out of
`get_unused_name`, modelled by an `Option` result. -/

/-- Python `name.rfind(sep)`: index of the last occurrence, `none` for Python's -1. -/
def rfindChar (sep : Char) : List Char → Option Nat
  | [] => none
  | c :: rest =>
    match rfindChar sep rest with
    | some i => some (i + 1)
    | none => if c = sep then some 0 else none

/-- Function `splitname(name, sep)`: split on the last separator occurrence. -/
def splitname (name : String) (sep : Char) : String × String :=
  match rfindChar sep name.toList with
  | some pos => (⟨name.toList.take pos⟩, ⟨name.toList.drop (pos + 1)⟩)
  | none => (name, "")

/-- Value of a nonempty all-digit string. -/
def digitsToNat (ds : List Char) : Nat :=
  ds.foldl (fun acc c => acc * 10 + (c.toNat - Char.toNat '0')) 0

def parseDigits (ds : List Char) : Option Nat :=
  if ds.isEmpty then none
  else if ds.all Char.isDigit then some (digitsToNat ds) else none

/-- Python `int(s)`: surrounding whitespace stripped, an optional sign, then
at least one digit; anything else raises `ValueError` (`none`). -/
def pyInt (s : String) : Option Int :=
  let cs := s.toList.dropWhile Char.isWhitespace
  let cs := (cs.reverse.dropWhile Char.isWhitespace).reverse
  match cs with
  | '+' :: ds => (parseDigits ds).map Int.ofNat
  | '-' :: ds => (parseDigits ds).map (fun n => -(n : Int))
  | ds => (parseDigits ds).map Int.ofNat

/-- The `used = set(); for obj in current: ...` loop of `get_unused_name`:
collect the integer suffixes of the names whose base equals `name` (the set
is a duplicate-free list); `none` when some such suffix makes `int` raise. -/
def collectUsed (name : String) (sep : Char) : List String → Option (List Int)
  | [] => some []
  | n :: rest =>
    let bs := splitname n sep
    if bs.1 = name ∧ bs.2 ≠ "" then
      match pyInt bs.2 with
      | none => none
      | some v =>
        match collectUsed name sep rest with
        | none => none
        | some used => some (if v ∈ used then used else v :: used)
    else collectUsed name sep rest

/-- The `for i in range(1, len(used)+2)` search for an unused ordinal. -/
def scanForUnused (used : List Int) : List Nat → Option Nat
  | [] => none
  | i :: rest =>
    if (i : Int) ∈ used then scanForUnused used rest else some i

/-- Function `get_unused_name(name, current, sep)`.  Here `none` models an uncaught
exception (in practice only the `ValueError` from `int`; the ordinal search
itself always succeeds, as proved below). -/
def get_unused_name (name : String) (current : List String) (sep : Char) :
    Option String :=
  match collectUsed name sep current with
  | none => none
  | some used =>
    match scanForUnused used (List.range' 1 (used.length + 1)) with
    | none => none
    | some i => some (name ++ sep.toString ++ toString i)

/-! ### Python exceptions surfaced by the remaining embeddings -/

inductive PyExc where
  | nameError   -- reading a name bound in no enclosing scope
  | unboundLocalError   -- reading a function-local name before assignment
  | attributeError   -- attribute access on an object lacking it
  | typeError   -- e.g. subscripting None
  | socketError (errno : Int)   -- a propagating `socket.error`
  | reachTimeoutError
      -- what `error.raise_error("VM(s) ... did not become reachable ...")`
      -- would produce; the `testmill.error` module is not in the snapshot,
      -- so this stands for the documented reachability error of the spec
  deriving DecidableEq

/-! ### application.py: the non-blocking ssh reachability probe

`wait_until_application_accepts_ssh` is embedded from
`lib/testmill/application.py` lines 92-160.  Wall-clock time is modelled by
the list of outer-loop rounds that fit before `end_time`: when the list is
exhausted, the `time.time() > end_time` check at the top of the loop breaks
to the failure branch.  Each round supplies the outcome of the non-blocking
`connect()` per address and the `(address, SO_ERROR)` pairs that the
`select`-driven inner loop observes within the round's poll budget (a
`socket.error` from `getsockopt` is folded into its errno by the source's
`except` clause, so a plain integer per event suffices).

The source assigns `error = sock.getsockopt(...)` (or `error = e.errno`)
inside the function, which makes `error` a function-local name throughout
the body and shadows the imported `testmill.error` module; the local is
modelled by the `errVar` field, `none` while unbound. -/

/-- Constant `errno.EINPROGRESS` on POSIX (the Windows branch adding `WSAEWOULDBLOCK`
is not modelled). -/
def EINPROGRESS : Int := 115

/-- Set `nb_connect_errors` from application.py line 92. -/
def nb_connect_errors : List Int := [EINPROGRESS]

/-- Outcome of one non-blocking `connect()` call. -/
inductive ConnectRes where
  | noExc : ConnectRes
  | exc (errno : Int) : ConnectRes

/-- One round of the outer `while True` loop. -/
structure Round where
  connect : String → ConnectRes
  events : List (String × Int)

/-- The message logged by `console.debug('connect(): errno {.errno}')`. -/
def connectMsg (errno : Int) : String :=
  "connect(): errno " ++ toString errno

/-- The mutable state of a probe call. -/
structure AppProbeSt where
  waitaddrs : List String
  aliveaddrs : List String
  errVar : Option Int
  log : List String

/-- The `for addr in waitaddrs` connect loop: returns the addresses
registered in `waitfds` and the debug messages of the skipped ones.  An
errno outside `nb_connect_errors` is logged and the address is not
registered (`continue`); `EINPROGRESS` — or an immediately successful
connect — registers the probing socket. -/
def appConnectPhase (connect : String → ConnectRes) :
    List String → List String × List String
  | [] => ([], [])
  | a :: rest =>
    match connect a with
    | .exc n =>
      if n ∈ nb_connect_errors then
        let r := appConnectPhase connect rest
        (a :: r.1, r.2)
      else
        let r := appConnectPhase connect rest
        (r.1, connectMsg n :: r.2)
    | .noExc =>
      let r := appConnectPhase connect rest
      (a :: r.1, r.2)

/-- The inner select loop: each writable socket's `SO_ERROR` is read into
the local `error`; zero moves the address to the alive set, nonzero leaves
it pending; the socket is closed (dropped from `waitfds`) either way.
Events for file descriptors not in `waitfds` cannot occur and are
skipped. -/
def appEventsPhase : List (String × Int) → List String → AppProbeSt →
    AppProbeSt
  | [], _, st => st
  | (a, code) :: rest, waitfds, st =>
    if a ∈ waitfds then
      let st1 := { st with errVar := some code }
      let st2 :=
        if code = 0 then
          { st1 with aliveaddrs := st1.aliveaddrs ++ [a],
                     waitaddrs := st1.waitaddrs.filter (· ≠ a) }
        else st1
      appEventsPhase rest (waitfds.filter (· ≠ a)) st2
    else appEventsPhase rest waitfds st

/-- One outer round: connect phase, then the select-driven events. -/
def appProbeRound (r : Round) (st : AppProbeSt) : AppProbeSt :=
  let cp := appConnectPhase r.connect st.waitaddrs
  appEventsPhase r.events cp.1 { st with log := st.log ++ cp.2 }

/-- How a probe call terminates. -/
inductive ProbeResult where
  | success (aliveaddrs : List String)   -- the plain `return` on line 154
  | exc (e : PyExc)
  deriving DecidableEq

def probeIsSuccess : ProbeResult → Bool
  | .success _ => true
  | .exc _ => false

/-- The `while True` loop of `wait_until_application_accepts_ssh` plus the
failure branch after it.  On timeout the source would call
`error.raise_error(...)`, but `error` is the function-local integer slot:
reading it yields `UnboundLocalError` while unbound, and attribute access
`error.raise_error` on the stored integer yields `AttributeError`. -/
def appProbeLoop : List Round → AppProbeSt → ProbeResult
  | [], st =>
    match st.errVar with
    | none => .exc .unboundLocalError
    | some _ => .exc .attributeError
  | r :: rest, st =>
    let st1 := appProbeRound r st
    if st1.waitaddrs.isEmpty then .success st1.aliveaddrs
    else appProbeLoop rest st1

/-- Function `wait_until_application_accepts_ssh` on an initial set of addresses: the
local `error` starts unbound, nothing is alive, nothing logged. -/
def wait_until_application_accepts_ssh (rounds : List Round)
    (addrs : List String) : ProbeResult :=
  appProbeLoop rounds ⟨addrs, [], none, []⟩

/-! ### run.py: the run-command ssh probe

`RunCommand.wait_until_vms_accept_ssh` is embedded from
`lib/testmill/run.py` lines 545-610 under the same conventions.  Its connect
loop differs from application.py's: an errno other than `EINPROGRESS` is
logged with `self.error(...)` and then re-raised, aborting the probe. -/

structure RunProbeSt where
  addrs : List String
  alive : List String
  log : List String

/-- run.py's connect loop: the registered addresses, or the errno and error
message of the `raise`. -/
def runConnectPhase (connect : String → ConnectRes) :
    List String → Except (Int × String) (List String)
  | [] => .ok []
  | a :: rest =>
    match connect a with
    | .exc n =>
      if n ≠ EINPROGRESS then .error (n, connectMsg n)
      else (runConnectPhase connect rest).map (a :: ·)
    | .noExc => (runConnectPhase connect rest).map (a :: ·)

/-- run.py's select loop (no name-shadowing consequence here: the failure
reporting after the loop does not touch the `error` local). -/
def runEventsPhase : List (String × Int) → List String → RunProbeSt →
    RunProbeSt
  | [], _, st => st
  | (a, code) :: rest, waitfds, st =>
    if a ∈ waitfds then
      let st1 :=
        if code = 0 then
          { st with alive := st.alive ++ [a],
                    addrs := st.addrs.filter (· ≠ a) }
        else st
      runEventsPhase rest (waitfds.filter (· ≠ a)) st1
    else runEventsPhase rest waitfds st

inductive RunProbeOutcome where
  | done (alive : List String) (log : List String)
  | fatalExit (log : List String)   -- `self.exit(1)`: no VM came up
  | raised (errno : Int) (log : List String)   -- the re-raised socket.error
  deriving DecidableEq

/-- The reporting after run.py's loop (`total` is `len(addrmap)`). -/
def runProbeFinish (total : Nat) (st : RunProbeSt) : RunProbeOutcome :=
  if st.alive.length ≠ total then
    .done st.alive
      (st.log ++ ["Error: Could not start " ++ toString (total - st.alive.length)
        ++ " out of " ++ toString total ++ " applications."])
  else if st.alive.length = 0 then .fatalExit (st.log ++ ["Error: no VM came up, exiting"])
  else .done st.alive st.log

/-- The `while True` loop of `wait_until_vms_accept_ssh`. -/
def runProbeLoop (total : Nat) : List Round → RunProbeSt → RunProbeOutcome
  | [], st => runProbeFinish total st
  | r :: rest, st =>
    match runConnectPhase r.connect st.addrs with
    | .error (n, msg) => .raised n (st.log ++ [msg])
    | .ok waitfds =>
      let st1 := runEventsPhase r.events waitfds st
      if st1.addrs.isEmpty then runProbeFinish total st1
      else runProbeLoop total rest st1

/-- Method `RunCommand.wait_until_vms_accept_ssh` on an initial address map. -/
def wait_until_vms_accept_ssh (rounds : List Round) (addrs : List String) :
    RunProbeOutcome :=
  runProbeLoop addrs.length rounds ⟨addrs, [], []⟩

/-! ### cache.py: the full-blueprint accessor

`get_full_blueprint` is embedded from `lib/testmill/cache.py` lines 114-122.
Its cache-hit test reads the name `app`, but the function's local names are
only `id`, `force_reload` and `bp`, and module `cache` defines no
module-level `app` either; the name lookup is made explicit so that the
`NameError` arises from the scope contents rather than by fiat.  Blueprint
payloads are opaque (`Nat`); the gateway fetch is an oracle `api`. -/

inductive PyVal where
  | vNone : PyVal
  | vInt (n : Int) : PyVal
  | vBool (b : Bool) : PyVal
  | vBlueprint (bp : Nat) : PyVal
  | vModuleMember (name : String) : PyVal

/-- Python name resolution over an explicit scope (locals, then the module
globals; builtins hold no relevant names). -/
def pyLookupName (scope : List (String × PyVal)) (n : String) :
    Except PyExc PyVal :=
  match List.lookup n scope with
  | some v => .ok v
  | none => .error .nameError

/-- The module-level names of `lib/testmill/cache.py`: the imported `env`
and the nine functions the module defines. -/
def cacheModuleScope : List (String × PyVal) :=
  [("env", .vModuleMember "testmill.state.env"),
   ("get_images", .vModuleMember "cache.get_images"),
   ("get_applications", .vModuleMember "cache.get_applications"),
   ("get_blueprints", .vModuleMember "cache.get_blueprints"),
   ("get_image", .vModuleMember "cache.get_image"),
   ("get_application", .vModuleMember "cache.get_application"),
   ("get_blueprint", .vModuleMember "cache.get_blueprint"),
   ("get_full_image", .vModuleMember "cache.get_full_image"),
   ("get_full_application", .vModuleMember "cache.get_full_application"),
   ("get_full_blueprint", .vModuleMember "cache.get_full_blueprint")]

def pyValOfBlueprint : Option Nat → PyVal
  | none => .vNone
  | some b => .vBlueprint b

def pyIsNone : PyVal → Bool
  | .vNone => true
  | _ => false

/-- The relevant attributes of the shared `env` object. -/
structure BlueprintCache where
  full_blueprints_attr : Option (List (Nat × Nat))   -- `env._full_blueprints`
  full_blueprint_typo_attr : Option (List (Nat × Nat))   -- `env._full_blueprint`

/-- Function `cache.get_full_blueprint(id, force_reload)`.  The returned option is
the Python return value (`None` possible in the dead cache-hit branch); the
store on line 121 targets the attribute `_full_blueprint`, not
`_full_blueprints`, and would raise `AttributeError` when that attribute is
unset — all of which is dead code behind the `app` lookup. -/
def get_full_blueprint (api : Nat → Nat) (id : Nat) (force_reload : Bool)
    (st : BlueprintCache) : Except PyExc (Option Nat × BlueprintCache) :=
  -- if not hasattr(env, '_full_blueprints'): env._full_blueprints = {}
  let st1 := if st.full_blueprints_attr.isNone
    then { st with full_blueprints_attr := some [] } else st
  -- bp = env._full_blueprints.get(id)
  let bp : Option Nat := List.lookup id (st1.full_blueprints_attr.getD [])
  -- if app is None or force_reload:   (locals: id, force_reload, bp)
  match pyLookupName (("id", .vInt id) :: ("force_reload", .vBool force_reload)
      :: ("bp", pyValOfBlueprint bp) :: cacheModuleScope) "app" with
  | .error e => .error e
  | .ok v =>
    if pyIsNone v || force_reload then
      let fetched := api id
      -- env._full_blueprint[id] = bp
      match st1.full_blueprint_typo_attr with
      | none => .error .attributeError
      | some m =>
        .ok (some fetched,
          { st1 with full_blueprint_typo_attr := some ((id, fetched) :: m) })
    else .ok (bp, st1)

/-- Case-insensitive lookup of `cache.get_blueprint(name=...)` over the
cached blueprint listing (cache.py lines 75-86). -/
def cacheGetBlueprint (blueprints : List (String × Nat)) (name : String) :
    Option Nat :=
  match blueprints with
  | [] => none
  | (bpname, bpid) :: rest =>
    if name.toLower = bpname.toLower then some bpid
    else cacheGetBlueprint rest name

/-- The blueprint prefix of `reuse_existing_application`
(`lib/testmill/application.py` lines 165-173): when the application
definition references a blueprint, the resolver looks the blueprint up in
the cached listing (`None['id']` raising `TypeError` when absent) and then
calls `cache.get_full_blueprint`; an exception here propagates before any
candidate is examined, so it decides the whole resolution. -/
def reuse_blueprint_step (api : Nat → Nat)
    (blueprints : List (String × Nat)) (appdefBlueprint : Option String)
    (st : BlueprintCache) : Except PyExc (Option Nat × BlueprintCache) :=
  match appdefBlueprint with
  | none => .ok (none, st)
  | some bpname =>
    match cacheGetBlueprint blueprints bpname with
    | none => .error .typeError
    | some bpid =>
      match get_full_blueprint api bpid false st with
      | .error e => .error e
      | .ok (bp, st1) => .ok (bp, st1)

/-! ## Theorems -/

/-! Helper facts about `pyListIndex` / `combine_states`. -/

theorem pyListIndex_none_iff (lst : List String) (x : String) :
    pyListIndex lst x = none ↔ x ∉ lst := by
  induction lst with
  | nil => simp [pyListIndex]
  | cons y ys ih =>
    by_cases h : y = x
    · subst h
      simp [pyListIndex]
    · simp [pyListIndex, h, Option.map_eq_none, ih, Ne.symm h]

theorem pyListIndex_isSome_iff (lst : List String) (x : String) :
    (pyListIndex lst x).isSome ↔ x ∈ lst := by
  rw [Option.isSome_iff_ne_none, Ne, pyListIndex_none_iff, not_not]

/-- A state outside `vm_ordered_states` is returned unchanged by
`combine_states`, whatever the other argument is. -/
theorem combine_states_unknown_left (u s : String)
    (hu : u ∉ vm_ordered_states) : combine_states u s = u := by
  have h : pyListIndex vm_ordered_states u = none :=
    (pyListIndex_none_iff _ _).mpr hu
  simp [combine_states, h]

theorem combine_states_unknown_right (s u : String)
    (hs : s ∈ vm_ordered_states) (hu : u ∉ vm_ordered_states) :
    combine_states s u = u := by
  have h : pyListIndex vm_ordered_states u = none :=
    (pyListIndex_none_iff _ _).mpr hu
  obtain ⟨i, hi⟩ := Option.isSome_iff_exists.mp
    ((pyListIndex_isSome_iff _ _).mpr hs)
  simp [combine_states, hi, h]

/-- On two known states `combine_states` stays in the known set. -/
theorem combine_states_mem (a b : String)
    (ha : a ∈ vm_ordered_states) (hb : b ∈ vm_ordered_states) :
    combine_states a b ∈ vm_ordered_states := by
  fin_cases ha <;> fin_cases hb <;> decide

/-- Known states are combined commutatively. -/
theorem combine_states_comm_of_known (a b : String)
    (ha : a ∈ vm_ordered_states) :
    combine_states a b = combine_states b a := by
  by_cases hb : b ∈ vm_ordered_states
  · fin_cases ha <;> fin_cases hb <;> decide
  · rw [combine_states_unknown_right a b ha hb,
        combine_states_unknown_left b a hb]

/-- The element found by `pyListIndex` really sits at the returned index. -/
theorem pyListIndex_getD (lst : List String) (x : String) (i : Nat)
    (d : String) (h : pyListIndex lst x = some i) : lst.getD i d = x := by
  induction lst generalizing i with
  | nil => simp [pyListIndex] at h
  | cons y ys ih =>
    by_cases hy : y = x
    · subst hy
      simp only [pyListIndex, if_pos rfl] at h
      obtain rfl : 0 = i := Option.some.inj h
      simp
    · simp only [pyListIndex, if_neg hy] at h
      cases hmap : pyListIndex ys x with
      | none => rw [hmap] at h; simp at h
      | some j =>
        rw [hmap] at h
        obtain rfl : j.succ = i := Option.some.inj (by simpa using h)
        simpa using ih j hmap

/-- C1 counterexample: `combine_states` is not commutative on two distinct
unrecognized state strings — it returns its first argument for both orders. -/
theorem combine_states_not_comm_on_unknowns :
    combine_states "FOO" "BAR" = "FOO" ∧ combine_states "BAR" "FOO" = "BAR" ∧
      combine_states "FOO" "BAR" ≠ combine_states "BAR" "FOO" := by
  refine ⟨by decide, by decide, by decide⟩

/-- C1 (amended): `combine_states` is idempotent on every state string and,
on two known states, returns the member of `vm_ordered_states` with the lower
index among the two.  Commutativity holds whenever at least one of the two
states is known or the two are equal; an unknown first argument is returned
unchanged (which is where commutativity on two distinct unknowns fails). -/
theorem combine_states_algebra :
    (∀ a : String, combine_states a a = a) ∧
    (∀ a b : String,
        a ∈ vm_ordered_states ∨ b ∈ vm_ordered_states ∨ a = b →
        combine_states a b = combine_states b a) ∧
    (∀ a b : String, ∀ i j : Nat,
        pyListIndex vm_ordered_states a = some i →
        pyListIndex vm_ordered_states b = some j →
        combine_states a b = if i ≤ j then a else b) ∧
    (∀ a b : String, a ∉ vm_ordered_states → combine_states a b = a) := by
  refine ⟨?_, ?_, ?_, ?_⟩
  · intro a
    by_cases ha : a ∈ vm_ordered_states
    · fin_cases ha <;> decide
    · exact combine_states_unknown_left a a ha
  · intro a b h
    rcases h with ha | hb | hab
    · exact combine_states_comm_of_known a b ha
    · exact (combine_states_comm_of_known b a hb).symm
    · subst hab; rfl
  · intro a b i j hi hj
    have key : combine_states a b = vm_ordered_states.getD (min i j) a := by
      unfold combine_states; rw [hi, hj]
    rw [key]
    by_cases hij : i ≤ j
    · rw [if_pos hij, min_eq_left hij]
      exact pyListIndex_getD _ _ _ _ hi
    · rw [if_neg hij, min_eq_right (le_of_not_le hij)]
      exact pyListIndex_getD _ _ _ _ hj
  · intro a b ha
    exact combine_states_unknown_left a b ha

/-- Folding further states onto an unknown accumulator leaves it unchanged. -/
theorem foldl_combine_states_unknown (ks : List String) (u : String)
    (hu : u ∉ vm_ordered_states) : ks.foldl combine_states u = u := by
  induction ks with
  | nil => rfl
  | cons k ks ih =>
    rw [List.foldl_cons, combine_states_unknown_left u k hu]
    exact ih

/-- Folding known states onto a known accumulator stays known. -/
theorem foldl_combine_states_known (ks : List String) (acc : String)
    (hacc : acc ∈ vm_ordered_states) (hks : ∀ s ∈ ks, s ∈ vm_ordered_states) :
    ks.foldl combine_states acc ∈ vm_ordered_states := by
  induction ks generalizing acc with
  | nil => exact hacc
  | cons k ks ih =>
    rw [List.foldl_cons]
    exact ih (combine_states acc k)
      (combine_states_mem acc k hacc (hks k (by simp)))
      (fun s hs => hks s (by simp [hs]))

/-- C2: combining a known state with an unknown one yields the unknown one in
either argument order, and consequently the pairwise reduction used by
`get_application_state` yields the unknown state whenever all states before it
in the VM list are known. -/
theorem combine_states_poison (k u : String)
    (hk : k ∈ vm_ordered_states) (hu : u ∉ vm_ordered_states) :
    combine_states k u = u ∧ combine_states u k = u ∧
    ∀ ks1 ks2 : List String, (∀ s ∈ ks1, s ∈ vm_ordered_states) →
      reduce_states (ks1 ++ u :: ks2) = some u := by
  refine ⟨combine_states_unknown_right k u hk hu,
          combine_states_unknown_left u k hu, ?_⟩
  intro ks1 ks2 hks1
  cases ks1 with
  | nil =>
    simp only [List.nil_append, reduce_states, pyReduce]
    rw [foldl_combine_states_unknown ks2 u hu]
  | cons k1 rest =>
    simp only [List.cons_append, reduce_states, pyReduce]
    rw [List.foldl_append, List.foldl_cons]
    have hk1 : k1 ∈ vm_ordered_states := hks1 k1 (by simp)
    have hknown : rest.foldl combine_states k1 ∈ vm_ordered_states :=
      foldl_combine_states_known rest k1 hk1
        (fun s hs => hks1 s (by simp [hs]))
    rw [combine_states_unknown_right _ u hknown hu,
        foldl_combine_states_unknown ks2 u hu]

/-- Witness for `combine_states_poison` at concrete inputs. -/
theorem combine_states_poison_witness :
    combine_states "STARTED" "ERROR" = "ERROR" ∧
      reduce_states ["STARTED", "ERROR", "STOPPED"] = some "ERROR" := by
  have h := combine_states_poison "STARTED" "ERROR" (by decide) (by decide)
  exact ⟨h.1, h.2.2 ["STARTED"] ["STOPPED"] (by decide)⟩

/-- Witness for `combine_states_algebra` at concrete inputs. -/
theorem combine_states_algebra_witness :
    combine_states "STOPPED" "STARTING" = "STOPPED" ∧
      combine_states "QUUX" "STARTED" = "QUUX" := by
  constructor
  · have h := combine_states_algebra.2.2.1 "STOPPED" "STARTING" 1 2
      (by decide) (by decide)
    simpa using h
  · exact combine_states_algebra.2.2.2 "QUUX" "STARTED" (by decide)

/-- C3: with the default of 3 bounded attempts, a GET whose first two
iterations raise a retryable timeout-class exception and whose third succeeds
returns the successful response having incremented the retry counter by
exactly 2; a POST raising the same exception on its first iteration re-raises
it immediately with no retry; and a GET whose every iteration raises the
exception ends with the terminal `RavelloError` after consuming all retries. -/
theorem retry_request_policy {α : Type} (att : Nat → Attempt α)
    (e : GatewayExc) (r : α) (he : should_retry e = true) :
    (att 0 = .exc e → att 1 = .exc e → att 2 = .ok r →
        retry_request "GET" default_retries att = (.response r, 2)) ∧
    (att 0 = .exc e →
        retry_request "POST" default_retries att = (.raised e, 0)) ∧
    ((∀ i, i < default_retries → att i = .exc e) →
        retry_request "GET" default_retries att = (.maxRetries, 3)) := by
  have hGET : idempotent "GET" = true := by decide
  have hPOST : idempotent "POST" = false := by decide
  refine ⟨?_, ?_, ?_⟩
  · intro h0 h1 h2
    simp [retry_request, default_retries, retryLoop, h0, h1, h2, he, hGET]
  · intro h0
    simp [retry_request, default_retries, retryLoop, h0, he, hPOST]
  · intro hall
    have h0 := hall 0 (by decide)
    have h1 := hall 1 (by decide)
    have h2 := hall 2 (by decide)
    simp [retry_request, default_retries, retryLoop, h0, h1, h2, he, hGET]

/-- A candidate with sort key 0 has state STARTED. -/
theorem preferenceKey_eq_zero {α : Type} (c : String × α)
    (h : preferenceKey c = 0) : c.1 = "STARTED" := by
  unfold preferenceKey at h
  cases hidx : pyListIndex VM_STATE_PREFERENCES c.1 with
  | none => rw [hidx] at h; simp at h
  | some i =>
    rw [hidx] at h
    simp only [Option.getD_some] at h
    subst h
    have := pyListIndex_getD VM_STATE_PREFERENCES c.1 0 "" hidx
    simpa [VM_STATE_PREFERENCES] using this.symm

/-- C4: for every non-empty candidate list, the reuse resolver selects a
candidate whose state has minimal index in the preference order
STARTED > STARTING > STOPPED > PUBLISHING, in whatever order the candidates
were enumerated; in particular, as soon as some candidate is STARTED, the
selected candidate is a STARTED one. -/
theorem select_reuse_candidate_best {α : Type}
    (candidates : List (String × α)) (hne : candidates ≠ []) :
    (∃ c, select_reuse_candidate candidates = some c ∧ c ∈ candidates ∧
        ∀ c' ∈ candidates, preferenceKey c ≤ preferenceKey c') ∧
    ((∃ c0 ∈ candidates, c0.1 = "STARTED") →
        ∃ c, select_reuse_candidate candidates = some c ∧
          c.1 = "STARTED" ∧ c ∈ candidates) := by
  classical
  set r : (String × α) → (String × α) → Prop := @prefLE α with hr
  haveI : IsTotal (String × α) r := ⟨fun a b => le_total _ _⟩
  haveI : IsTrans (String × α) r := ⟨fun a b c => le_trans⟩
  have hperm := List.perm_insertionSort r candidates
  have hsorted := List.sorted_insertionSort r candidates
  have hsel_def : select_reuse_candidate candidates =
      (List.insertionSort r candidates).head? := by
    cases candidates with
    | nil => exact absurd rfl hne
    | cons c cs => rfl
  have hmain : ∃ c, select_reuse_candidate candidates = some c ∧
      c ∈ candidates ∧ ∀ c' ∈ candidates, preferenceKey c ≤ preferenceKey c' := by
    cases hs : List.insertionSort r candidates with
    | nil =>
      rw [hs] at hperm
      exact absurd hperm.symm.eq_nil hne
    | cons x rest =>
      refine ⟨x, ?_, ?_, ?_⟩
      · rw [hsel_def, hs]; rfl
      · exact hperm.mem_iff.mp (by rw [hs]; simp)
      · intro c' hc'
        have hc'' : c' ∈ x :: rest := by
          rw [← hs]; exact hperm.mem_iff.mpr hc'
        rcases List.mem_cons.mp hc'' with h | h
        · subst h; exact le_refl _
        · have := List.rel_of_sorted_cons (hs ▸ hsorted) c' h
          exact this
  refine ⟨hmain, ?_⟩
  rintro ⟨c0, hc0, hc0s⟩
  obtain ⟨c, hsel, hmem, hmin⟩ := hmain
  have hkey0 : preferenceKey c0 = 0 := by
    unfold preferenceKey
    rw [hc0s]
    decide
  have : preferenceKey c = 0 :=
    Nat.le_zero.mp (hkey0 ▸ hmin c0 hc0)
  exact ⟨c, hsel, preferenceKey_eq_zero c this, hmem⟩

/-- Witness for `select_reuse_candidate_best` on a concrete enumeration with
states {PUBLISHING, STARTED, STOPPED}. -/
theorem select_reuse_candidate_best_witness :
    ∃ c : String × Nat,
      select_reuse_candidate [("PUBLISHING", 1), ("STARTED", 2), ("STOPPED", 3)]
          = some c ∧ c.1 = "STARTED" ∧
        c ∈ [("PUBLISHING", 1), ("STARTED", 2), ("STOPPED", 3)] :=
  (select_reuse_candidate_best
      [("PUBLISHING", 1), ("STARTED", 2), ("STOPPED", 3)]
      (by decide)).2 ⟨("STARTED", 2), by decide, rfl⟩

/-- C5 (code bug at a failing input): on a cached catalog image with a nested
id field, the application.py create path (deep copy before `update_luids`)
leaves the cache entry unchanged, but the run.py create path
(`_create_new_single_vm_application`, no deep copy) leaves the id-regenerated
tree in the cache: the cached catalog original is mutated. -/
theorem run_create_mutates_cached_image :
    create_new_vm_effect (fun k => 42 + k) [(7, sampleImage)] 7 =
        some (sampleImageRegen, [(7, sampleImage)]) ∧
    run_create_vm_effect (fun k => 42 + k) [(7, sampleImage)] 7 =
        some (sampleImageRegen, [(7, sampleImageRegen)]) ∧
    sampleImageRegen ≠ sampleImage := by
  refine ⟨?_, ?_, ?_⟩
  · simp [create_new_vm_effect, sampleImage, sampleImageRegen, List.lookup,
      update_luids, updateLuidsFields, updateLuidsElems, random_luid]
  · simp [run_create_vm_effect, sampleImage, sampleImageRegen, List.lookup,
      update_luids, updateLuidsFields, updateLuidsElems, random_luid]
  · simp [sampleImage, sampleImageRegen]

/-- C6: starting from a host without the marker, the first sysinit run
executes the stage's commands (once, in order, under elevation) and writes
the content-hash marker; a second run with the identical command list is a
no-op, so the commands run exactly once over the two invocations. -/
theorem sysinit_run_idempotent (expand : String → String)
    (commands : List String) (host : RemoteHost)
    (h : ¬ host.files.contains (sysinitMarker commands) = true) :
    (sysinit_run expand commands host).executed
        = host.executed ++ commands.map expand ∧
    sysinit_run expand commands (sysinit_run expand commands host)
        = sysinit_run expand commands host := by
  have h' : sysinitMarker commands ∉ host.files := by simpa using h
  constructor
  · simp [sysinit_run, h']
  · have hmem : sysinitMarker commands ∈
        (sysinit_run expand commands host).files := by
      simp [sysinit_run, h']
    rw [sysinit_run]
    simp [hmem]

/-- Witness for `sysinit_run_idempotent` on a concrete host and command
list. -/
theorem sysinit_run_idempotent_witness :
    (sysinit_run id ["yum install -y git"] ⟨[], []⟩).executed
        = ["yum install -y git"] ∧
    sysinit_run id ["yum install -y git"]
        (sysinit_run id ["yum install -y git"] ⟨[], []⟩)
      = sysinit_run id ["yum install -y git"] ⟨[], []⟩ := by
  have h := sysinit_run_idempotent id ["yum install -y git"] ⟨[], []⟩
    (by decide)
  exact ⟨by simpa using h.1, h.2⟩

/-- The ordinal scan over a consecutive range returns the least value of the
range that is not in `used`. -/
theorem scanForUnused_range (used : List Int) :
    ∀ len a r : Nat, scanForUnused used (List.range' a len) = some r →
      a ≤ r ∧ r < a + len ∧ (r : Int) ∉ used ∧
        ∀ j : Nat, a ≤ j → j < r → (j : Int) ∈ used := by
  intro len
  induction len with
  | zero => intro a r h; simp [List.range', scanForUnused] at h
  | succ n ih =>
    intro a r h
    rw [List.range'_succ, scanForUnused] at h
    by_cases hm : (a : Int) ∈ used
    · rw [if_pos hm] at h
      obtain ⟨h1, h2, h3, h4⟩ := ih (a + 1) r h
      refine ⟨by omega, by omega, h3, fun j hj1 hj2 => ?_⟩
      rcases Nat.eq_or_lt_of_le hj1 with rfl | hlt
      · exact hm
      · exact h4 j hlt hj2
    · rw [if_neg hm] at h
      obtain rfl : a = r := Option.some.inj h
      exact ⟨le_refl _, by omega, hm,
        fun j hj1 hj2 => absurd (lt_of_le_of_lt hj1 hj2) (lt_irrefl _)⟩

/-- The ordinal scan succeeds as soon as some scanned value is unused. -/
theorem scanForUnused_isSome (used : List Int) (l : List Nat)
    (h : ∃ i ∈ l, (i : Int) ∉ used) :
    (scanForUnused used l).isSome := by
  induction l with
  | nil => simp at h
  | cons i rest ih =>
    rw [scanForUnused]
    by_cases hm : (i : Int) ∈ used
    · rw [if_pos hm]
      apply ih
      obtain ⟨j, hj, hju⟩ := h
      rcases List.mem_cons.mp hj with rfl | hjr
      · exact absurd hm hju
      · exact ⟨j, hjr, hju⟩
    · rw [if_neg hm]; rfl

/-- Pigeonhole for the source's `range(1, len(used)+2)` bound: some ordinal
in the scanned range is unused. -/
theorem exists_unused_in_range (used : List Int) :
    ∃ i ∈ List.range' 1 (used.length + 1), (i : Int) ∉ used := by
  by_contra hall
  push_neg at hall
  have hinj : Function.Injective
      (fun k : Fin (used.length + 1) => ((k : Nat) + 1 : Int)) := by
    intro a b hab
    simp only [Int.natCast_inj] at hab
    exact Fin.ext (by omega)
  have hsub : Finset.image
      (fun k : Fin (used.length + 1) => ((k : Nat) + 1 : Int)) Finset.univ
        ⊆ used.toFinset := by
    intro x hx
    simp only [Finset.mem_image, Finset.mem_univ, true_and] at hx
    obtain ⟨k, hk⟩ := hx
    subst hk
    refine List.mem_toFinset.mpr (hall ((k : Nat) + 1) ?_)
    exact List.mem_range'_1.mpr ⟨by omega, by omega⟩
  have hge : used.length + 1 ≤ used.toFinset.card := by
    have := Finset.card_le_card hsub
    rwa [Finset.card_image_of_injective _ hinj, Finset.card_univ,
      Fintype.card_fin] at this
  have hle := List.toFinset_card_le used
  omega

/-- C7 (amended): whenever every currently listed name whose base equals the
requested name carries an integer suffix (so that `int` does not raise),
`get_unused_name` returns `name:<m>` where `m` is the least positive integer
not in the used-suffix set; in particular an environment `web` with no
existing instances is assigned the name `web:1`. -/
theorem get_unused_name_least (name : String) (current : List String)
    (used : List Int) (h : collectUsed name ':' current = some used) :
    (∃ m : Nat, get_unused_name name current ':' =
        some (name ++ ":" ++ toString m) ∧ 1 ≤ m ∧ (m : Int) ∉ used ∧
        ∀ j : Nat, 1 ≤ j → j < m → (j : Int) ∈ used) ∧
      get_unused_name "web" [] ':' = some "web:1" := by
  constructor
  · obtain ⟨i0, hi0mem, hi0⟩ := exists_unused_in_range used
    obtain ⟨m, hm⟩ := Option.isSome_iff_exists.mp
      (scanForUnused_isSome used _ ⟨i0, hi0mem, hi0⟩)
    obtain ⟨h1, _h2, h3, h4⟩ :=
      scanForUnused_range used (used.length + 1) 1 m hm
    refine ⟨m, ?_, h1, h3, h4⟩
    have hsep : (':' : Char).toString = ":" := rfl
    simp only [get_unused_name, h]
    rw [hm, hsep]
  · decide

/-- C7 counterexample: a listed name with a matching base and a non-numeric
suffix makes `int(suffix)` raise `ValueError`, so no name is constructed —
refuting the claim for arbitrary listings (the predicted result would have
been `web:1`). -/
theorem get_unused_name_nonnumeric_suffix :
    get_unused_name "web" ["web:x"] ':' = none ∧
      get_unused_name "web" ["web:x"] ':' ≠ some "web:1" := by
  exact ⟨by decide, by decide⟩

/-- Witness for `get_unused_name_least`: names `web:1` and `web:3` are in
use (plus an unrelated `db:2`), and the least unused ordinal 2 is picked. -/
theorem get_unused_name_least_witness :
    (∃ m : Nat, get_unused_name "web" ["web:1", "web:3", "db:2"] ':' =
        some ("web" ++ ":" ++ toString m) ∧ 1 ≤ m ∧
        (m : Int) ∉ ([1, 3] : List Int) ∧
        ∀ j : Nat, 1 ≤ j → j < m → (j : Int) ∈ ([1, 3] : List Int)) ∧
      get_unused_name "web" [] ':' = some "web:1" :=
  get_unused_name_least "web" ["web:1", "web:3", "db:2"] [1, 3] (by decide)

/-- C9: `cache.get_full_blueprint` reads the unbound name `app` in its
cache-hit test, so it raises `NameError` for every blueprint id, every
`force_reload` value and every cache state — a cached full blueprint is
never returned — and consequently `reuse_existing_application` fails for
every application definition that references a blueprint (with `NameError`
when the blueprint name is in the cached listing, and `TypeError` from
subscripting `None` when it is not). -/
theorem get_full_blueprint_always_nameerror :
    (∀ (api : Nat → Nat) (id : Nat) (force_reload : Bool)
        (st : BlueprintCache),
        get_full_blueprint api id force_reload st =
          .error .nameError) ∧
    (∀ (api : Nat → Nat) (blueprints : List (String × Nat)) (bpname : String)
        (st : BlueprintCache), ∃ e : PyExc,
        reuse_blueprint_step api blueprints (some bpname) st =
          .error e) := by
  have hmain : ∀ (api : Nat → Nat) (id : Nat) (fr : Bool)
      (st : BlueprintCache),
      get_full_blueprint api id fr st = .error .nameError := by
    intro api id fr st
    rfl
  refine ⟨hmain, ?_⟩
  intro api bps bpname st
  cases h : cacheGetBlueprint bps bpname with
  | none => exact ⟨.typeError, by simp [reuse_blueprint_step, h]⟩
  | some bpid =>
    exact ⟨.nameError, by simp [reuse_blueprint_step, h, hmain]⟩

/-- The ssh probe loop of application.py can only end in a plain success
return or in one of the two exceptions produced by the shadowed `error`
local at timeout. -/
theorem appProbeLoop_cases (rounds : List Round) :
    ∀ st : AppProbeSt,
      (∃ al, appProbeLoop rounds st = .success al) ∨
      appProbeLoop rounds st = .exc .unboundLocalError ∨
      appProbeLoop rounds st = .exc .attributeError := by
  induction rounds with
  | nil =>
    intro st
    cases h : st.errVar with
    | none => exact Or.inr (Or.inl (by simp [appProbeLoop, h]))
    | some code => exact Or.inr (Or.inr (by simp [appProbeLoop, h]))
  | cons r rest ih =>
    intro st
    rw [appProbeLoop]
    by_cases he : (appProbeRound r st).waitaddrs.isEmpty
    · exact Or.inl ⟨(appProbeRound r st).aliveaddrs, by simp [he]⟩
    · simpa [he] using ih (appProbeRound r st)

/-- A round with no writable-socket events leaves the `error` local
untouched. -/
theorem appProbeRound_errVar_no_events (r : Round) (st : AppProbeSt)
    (h : r.events = []) : (appProbeRound r st).errVar = st.errVar := by
  simp [appProbeRound, h, appEventsPhase]

/-- Loop-level form of C10, for an arbitrary starting state. -/
theorem appProbeLoop_timeout (rounds : List Round) :
    ∀ st : AppProbeSt,
      probeIsSuccess (appProbeLoop rounds st) = false →
      (appProbeLoop rounds st = .exc .unboundLocalError ∨
        appProbeLoop rounds st = .exc .attributeError) ∧
      appProbeLoop rounds st ≠ .exc .reachTimeoutError ∧
      (st.errVar = none → (∀ r ∈ rounds, r.events = []) →
        appProbeLoop rounds st = .exc .unboundLocalError) := by
  induction rounds with
  | nil =>
    intro st _
    cases h : st.errVar with
    | none =>
      have hval : appProbeLoop [] st = .exc .unboundLocalError := by
        simp [appProbeLoop, h]
      rw [hval]
      exact ⟨Or.inl rfl, by decide, fun _ _ => rfl⟩
    | some code =>
      have hval : appProbeLoop [] st = .exc .attributeError := by
        simp [appProbeLoop, h]
      rw [hval]
      refine ⟨Or.inr rfl, by decide, fun hn _ => ?_⟩
      exact Option.noConfusion hn
  | cons r rest ih =>
    intro st hns
    rw [appProbeLoop] at hns ⊢
    by_cases he : (appProbeRound r st).waitaddrs.isEmpty
    · rw [if_pos he] at hns
      simp [probeIsSuccess] at hns
    · rw [if_neg he] at hns ⊢
      obtain ⟨h1, h2, h3⟩ := ih (appProbeRound r st) hns
      refine ⟨h1, h2, fun hn hr => ?_⟩
      apply h3
      · rw [appProbeRound_errVar_no_events r st (hr r (by simp))]
        exact hn
      · exact fun r' hr' => hr r' (by simp [hr'])

/-- C10: whenever `wait_until_application_accepts_ssh` does not return
success (it reaches its outer timeout), the exception it raises comes from
the function-local integer slot `error` that shadows the `testmill.error`
module: an `UnboundLocalError` when no probing socket ever became writable,
an `AttributeError` (on an integer) otherwise — never the documented
reachability error that `error.raise_error` would have produced. -/
theorem ssh_probe_timeout_raises_shadowed (rounds : List Round)
    (addrs : List String)
    (h : probeIsSuccess (wait_until_application_accepts_ssh rounds addrs)
      = false) :
    (wait_until_application_accepts_ssh rounds addrs
        = .exc .unboundLocalError ∨
      wait_until_application_accepts_ssh rounds addrs
        = .exc .attributeError) ∧
    wait_until_application_accepts_ssh rounds addrs
        ≠ .exc .reachTimeoutError ∧
    ((∀ r ∈ rounds, r.events = []) →
      wait_until_application_accepts_ssh rounds addrs
        = .exc .unboundLocalError) := by
  obtain ⟨h1, h2, h3⟩ :=
    appProbeLoop_timeout rounds ⟨addrs, [], none, []⟩ h
  exact ⟨h1, h2, fun hr => h3 rfl hr⟩

/-- Witness for `ssh_probe_timeout_raises_shadowed`: an immediate timeout
with one pending address raises `UnboundLocalError`. -/
theorem ssh_probe_timeout_raises_shadowed_witness :
    wait_until_application_accepts_ssh [] ["10.0.0.1"]
      = .exc .unboundLocalError := by
  have h := ssh_probe_timeout_raises_shadowed [] ["10.0.0.1"] (by decide)
  exact h.2.2 (fun r hr => absurd hr (List.not_mem_nil r))

/-- The connect loop of application.py's probe registers no socket for an
address whose `connect()` raised an errno outside `nb_connect_errors`. -/
theorem appConnectPhase_skips (c : String → ConnectRes) (a : String)
    (n : Int) (hc : c a = .exc n) (hn : n ∉ nb_connect_errors) :
    ∀ addrs : List String, a ∉ (appConnectPhase c addrs).1 := by
  intro addrs
  induction addrs with
  | nil => simp [appConnectPhase]
  | cons b rest ih =>
    by_cases hb : b = a
    · subst hb
      simp only [appConnectPhase, hc]
      rw [if_neg hn]
      exact ih
    · cases hcb : c b with
      | noExc =>
        simp only [appConnectPhase, hcb]
        simpa [Ne.symm hb] using ih
      | exc m =>
        by_cases hm : m ∈ nb_connect_errors
        · simp only [appConnectPhase, hcb, if_pos hm]
          simpa [Ne.symm hb] using ih
        · simp only [appConnectPhase, hcb, if_neg hm]
          exact ih

/-- Moreover the connect loop logs the errno of such an address. -/
theorem appConnectPhase_logs (c : String → ConnectRes) (a : String)
    (n : Int) (hc : c a = .exc n) (hn : n ∉ nb_connect_errors) :
    ∀ addrs : List String, a ∈ addrs →
      connectMsg n ∈ (appConnectPhase c addrs).2 := by
  intro addrs
  induction addrs with
  | nil => simp
  | cons b rest ih =>
    intro hmem
    rcases List.mem_cons.mp hmem with rfl | hmem'
    · simp only [appConnectPhase, hc]
      rw [if_neg hn]
      simp
    · cases hcb : c b with
      | noExc =>
        simp only [appConnectPhase, hcb]
        simpa using ih hmem'
      | exc m =>
        by_cases hm : m ∈ nb_connect_errors
        · simp only [appConnectPhase, hcb, if_pos hm]
          simpa using ih hmem'
        · simp only [appConnectPhase, hcb, if_neg hm]
          exact List.mem_cons_of_mem _ (ih hmem')

/-- The select loop never drops an address that has no registered socket. -/
theorem appEventsPhase_retains (events : List (String × Int)) :
    ∀ (waitfds : List String) (st : AppProbeSt) (a : String),
      a ∉ waitfds → a ∈ st.waitaddrs →
      a ∈ (appEventsPhase events waitfds st).waitaddrs := by
  induction events with
  | nil => intro _ _ _ _ h; simpa [appEventsPhase] using h
  | cons ev rest ih =>
    intro waitfds st a hfd hmem
    obtain ⟨b, code⟩ := ev
    rw [appEventsPhase]
    by_cases hb : b ∈ waitfds
    · rw [if_pos hb]
      have hab : a ≠ b := fun h => hfd (h ▸ hb)
      apply ih
      · simp only [List.mem_filter]
        exact fun h => hfd h.1
      · by_cases hz : code = 0
        · simp [hz, List.mem_filter, hmem, hab]
        · simpa [hz] using hmem
    · rw [if_neg hb]
      exact ih waitfds st a hfd hmem

/-- The select loop does not log. -/
theorem appEventsPhase_log (events : List (String × Int)) :
    ∀ (waitfds : List String) (st : AppProbeSt),
      (appEventsPhase events waitfds st).log = st.log := by
  induction events with
  | nil => intro _ _; rfl
  | cons ev rest ih =>
    intro waitfds st
    obtain ⟨b, code⟩ := ev
    rw [appEventsPhase]
    by_cases hb : b ∈ waitfds
    · rw [if_pos hb]
      by_cases hz : code = 0 <;> simp [hz, ih]
    · rw [if_neg hb]
      exact ih waitfds st

/-- run.py's connect loop raises as soon as some address's `connect()`
fails with an errno other than `EINPROGRESS`. -/
theorem runConnectPhase_raises (c : String → ConnectRes) (a : String)
    (n : Int) (hc : c a = .exc n) (hn : n ≠ EINPROGRESS) :
    ∀ addrs : List String, a ∈ addrs →
      ∃ e, runConnectPhase c addrs = .error e := by
  intro addrs
  induction addrs with
  | nil => simp
  | cons b rest ih =>
    intro hmem
    rcases List.mem_cons.mp hmem with rfl | hmem'
    · refine ⟨(n, connectMsg n), ?_⟩
      simp only [runConnectPhase, hc]
      rw [if_pos hn]
    · cases hcb : c b with
      | noExc =>
        obtain ⟨e, he⟩ := ih hmem'
        refine ⟨e, ?_⟩
        simp only [runConnectPhase, hcb]
        rw [he]; rfl
      | exc m =>
        by_cases hm : m ≠ EINPROGRESS
        · refine ⟨(m, connectMsg m), ?_⟩
          simp only [runConnectPhase, hcb]
          rw [if_pos hm]
        · obtain ⟨e, he⟩ := ih hmem'
          refine ⟨e, ?_⟩
          simp only [runConnectPhase, hcb]
          rw [if_neg hm, he]; rfl

/-- C8 (amended): in application.py's probe an address whose non-blocking
`connect()` fails immediately with an errno outside `nb_connect_errors` has
the errno logged and stays in the pending set for the next round, and the
probe never aborts with a propagating socket error; in run.py's
`wait_until_vms_accept_ssh` the same failure is re-raised, aborting the
probe. -/
theorem probe_connect_error_handling :
    (∀ (r : Round) (st : AppProbeSt) (a : String) (n : Int),
        a ∈ st.waitaddrs → r.connect a = .exc n →
        n ∉ nb_connect_errors →
        a ∈ (appProbeRound r st).waitaddrs ∧
          connectMsg n ∈ (appProbeRound r st).log) ∧
    (∀ (rounds : List Round) (addrs : List String) (m : Int),
        wait_until_application_accepts_ssh rounds addrs
          ≠ .exc (.socketError m)) ∧
    (∀ (c : String → ConnectRes) (events : List (String × Int))
        (rest : List Round) (total : Nat) (st : RunProbeSt) (a : String)
        (n : Int),
        a ∈ st.addrs → c a = .exc n → n ≠ EINPROGRESS →
        ∃ m log, runProbeLoop total (⟨c, events⟩ :: rest) st
          = .raised m log) := by
  refine ⟨?_, ?_, ?_⟩
  · intro r st a n hmem hc hn
    constructor
    · apply appEventsPhase_retains
      · exact appConnectPhase_skips r.connect a n hc hn st.waitaddrs
      · exact hmem
    · rw [appProbeRound, appEventsPhase_log]
      simp only [List.mem_append]
      exact Or.inr (appConnectPhase_logs r.connect a n hc hn st.waitaddrs hmem)
  · intro rounds addrs m
    rcases appProbeLoop_cases rounds ⟨addrs, [], none, []⟩ with ⟨al, h⟩ | h | h <;>
      · rw [wait_until_application_accepts_ssh, h]
        simp
  · intro c events rest total st a n hmem hc hn
    obtain ⟨e, he⟩ := runConnectPhase_raises c a n hc hn st.addrs hmem
    exact ⟨e.1, st.log ++ [e.2], by rw [runProbeLoop, he]⟩

/-- C8 counterexample: run.py's probe, given one address whose `connect()`
fails immediately with `ECONNREFUSED` (111), logs the errno and re-raises —
it aborts instead of retrying the address in the next round. -/
theorem run_probe_aborts_on_connect_error :
    wait_until_vms_accept_ssh
        [⟨fun _ => .exc 111, []⟩, ⟨fun _ => .noExc, [("10.0.0.1", 0)]⟩]
        ["10.0.0.1"]
      = .raised 111 ["connect(): errno 111"] := by
  decide

/-- Witness for `probe_connect_error_handling` at a concrete round and
state. -/
theorem probe_connect_error_handling_witness :
    "10.0.0.1" ∈ (appProbeRound ⟨fun _ => .exc 111, []⟩
        ⟨["10.0.0.1"], [], none, []⟩).waitaddrs ∧
      connectMsg 111 ∈ (appProbeRound ⟨fun _ => .exc 111, []⟩
        ⟨["10.0.0.1"], [], none, []⟩).log :=
  probe_connect_error_handling.1 ⟨fun _ => .exc 111, []⟩
    ⟨["10.0.0.1"], [], none, []⟩ "10.0.0.1" 111 (by decide) rfl (by decide)

/-- Witness for `retry_request_policy`: a concrete attempt oracle that times
out twice and then returns the value 7. -/
theorem retry_request_policy_witness :
    retry_request "GET" default_retries
        (fun i => if i < 2 then .exc .socketTimeout else .ok 7) =
      (.response 7, 2) ∧
    retry_request "POST" default_retries
        (fun i => if i < 2 then .exc .socketTimeout else .ok 7) =
      (.raised .socketTimeout, 0) := by
  have h := retry_request_policy
    (fun i => if i < 2 then Attempt.exc .socketTimeout else Attempt.ok 7)
    GatewayExc.socketTimeout 7 (by decide)
  exact ⟨h.1 (by decide) (by decide) (by decide), h.2.1 (by decide)⟩

end Testmill
